import Mathlib

/-!
Verification of the FittingAedes repository's numeric core.

The development shallowly embeds, over `ℚ` and `ℝ`:
* the reservoir / carrying-capacity computation of `src/readHistData.py`
  (`days`, `Evap`, `H`, `K` and their constants);
* the two interpolation builders the repository calls: `numpy.interp`
  (used in `src/readHistData.py`, which clamps outside the sample range)
  and `scipy.interpolate.interp1d(kind='linear', fill_value='extrapolate')`
  (used in the `testDataset` variants, which extrapolates linearly);
* the zoom-level selector `calculate_zoom_for_1km` of
  `src/maps/download_maps.py`;
* the weighting functions `normal` and `phi` of `src/readHistData.py` and
  of `src/testDataset/readHistData.py` /
  `src/testDataset/NovaIguacu/readHistData.py` (the latter two agree),
  with `erf` given by its standard integral definition.

Rational-valued data (precipitation, temperature, reservoir arithmetic) is
embedded over `ℚ`; formulas involving `cos`, `exp`, `erf` over `ℝ`.
-/

namespace ReadHistData

/-- The sample-day list of `src/readHistData.py` (`days = [0,30,...,690]`). -/
def days : List ℚ :=
  [0, 30, 60, 90, 120, 150, 180, 210, 240, 270, 300, 330, 360,
   390, 420, 450, 480, 510, 540, 570, 600, 630, 660, 690]

/-- `Kmax = 212` from `src/readHistData.py`. -/
def Kmax : ℚ := 212

/-- `Hmax = 24` from `src/readHistData.py`. -/
def Hmax : ℚ := 24

/-- `Hum = 85` from `src/readHistData.py`. -/
def Hum : ℚ := 85

/-- `l = 3.9E-5` from `src/readHistData.py`. -/
def l : ℚ := 3.9e-5

/-- The evaporation list of `src/readHistData.py`:
`Evap = [l*(25+temperature(day))**2*(100-Hum) for day in days]`.
The ambient `temperature` interpolant is abstracted as a function `ℚ → ℚ`
(its CSV data file is not part of the sources). -/
def Evap (temperature : ℚ → ℚ) : List ℚ :=
  days.map fun day => l * (25 + temperature day) ^ 2 * (100 - Hum)

/-- The two sequential conditionals of the source loop:
`if H[i] > Hmax: H[i] = Hmax` followed by `if H[i] < 0: H[i] = 0`
(the second conditional tests the value produced by the first). -/
def clamp2 (h : ℚ) : ℚ :=
  if (if h > Hmax then Hmax else h) < 0 then 0
  else if h > Hmax then Hmax else h

/-- The reservoir sequence of `src/readHistData.py`:
`H = np.zeros(len(days))` (so `H[0] = 0`) and, for `i ≥ 1`,
`H[i] = H[i-1] + (pluviosity(days[i-1]) - Evap[i-1])` followed by the two
clamping conditionals.  `temperature` and `pluviosity` are abstracted as
functions `ℚ → ℚ`. -/
def H (temperature pluviosity : ℚ → ℚ) : ℕ → ℚ
  | 0 => 0
  | i + 1 =>
    clamp2 (H temperature pluviosity i +
      (pluviosity (days.getD i 0) - (Evap temperature).getD i 0))

/-- The capacity list of `src/readHistData.py`:
`K = [Kmax*H[i]/Hmax + 1 for i in range(len(days))]`, as a function of the
index. -/
def K (temperature pluviosity : ℚ → ℚ) (i : ℕ) : ℚ :=
  Kmax * H temperature pluviosity i / Hmax + 1

/-- Modelled from the spec (§4.3 step 2): clamping to the closed interval
`[0, Hmax]`. -/
def specClamp (x : ℚ) : ℚ := max 0 (min Hmax x)

/-- Modelled from the spec (§4.3 step 1): evaporation at a given day,
`Evap[i] = lambda * (25 + temperature(days[i]))^2 * (100 - Hum)`. -/
def specEvap (temperature : ℚ → ℚ) (day : ℚ) : ℚ :=
  l * (25 + temperature day) ^ 2 * (100 - Hum)

end ReadHistData

namespace Interp

/-- Shallow embedding of the 1-D linear interpolation `numpy.interp(x, xp, fp)`
called by `pluviosity`/`temperature` in `src/readHistData.py`.  The equal-length
sample arrays `xp`, `fp` are paired into one list.  For `x` below the first
sample point it returns the first value, for `x` above the last sample point
the last value (numpy clamps; it does not extrapolate); in between it
interpolates linearly on the enclosing segment. -/
def npInterp : List (ℚ × ℚ) → ℚ → ℚ
  | [], _ => 0
  | [a], _ => a.2
  | a :: b :: rest, x =>
    if x < a.1 then a.2
    else if x ≤ b.1 then a.2 + (x - a.1) * (b.2 - a.2) / (b.1 - a.1)
    else npInterp (b :: rest) x

/-- Shallow embedding of
`scipy.interpolate.interp1d(xs, ys, kind='linear', fill_value='extrapolate')`
called in `src/testDataset/readHistData.py` and
`src/testDataset/NovaIguacu/readHistData.py`.  The equal-length sample arrays
are paired into one list.  Inside the sample range it interpolates linearly on
the enclosing segment; outside it extrapolates linearly using the slope of the
first (resp. last) segment. -/
def interp1dLin : List (ℚ × ℚ) → ℚ → ℚ
  | [], _ => 0
  | [a], _ => a.2
  | a :: b :: rest, x =>
    if x ≤ b.1 then a.2 + (x - a.1) * (b.2 - a.2) / (b.1 - a.1)
    else
      match rest with
      | [] => a.2 + (x - a.1) * (b.2 - a.2) / (b.1 - a.1)
      | _ :: _ => interp1dLin (b :: rest) x

end Interp

namespace ReadHistData

lemma getD_map_eq (f : ℚ → ℚ) :
    ∀ (L : List ℚ) (i : ℕ), i < L.length → (L.map f).getD i 0 = f (L.getD i 0)
  | [], i, h => absurd h (by simp)
  | a :: t, 0, _ => rfl
  | a :: t, i + 1, h => by
    simp only [List.map_cons, List.getD_cons_succ]
    exact getD_map_eq f t i (by simpa using h)

lemma clamp2_nonneg (h : ℚ) : 0 ≤ clamp2 h := by
  unfold clamp2 Hmax
  split_ifs <;> linarith

lemma clamp2_le_Hmax (h : ℚ) : clamp2 h ≤ Hmax := by
  unfold clamp2 Hmax
  split_ifs <;> linarith

lemma clamp2_eq_specClamp (h : ℚ) : clamp2 h = specClamp h := by
  unfold clamp2 specClamp Hmax
  split_ifs with h1 h2 h3 <;>
    rw [max_def, min_def] <;> split_ifs <;> linarith

end ReadHistData

open ReadHistData in
/-- C2: for every input temperature and precipitation series, every element
`H[i]` of the reservoir state sequence lies in the closed interval
`[0, Hmax]`: `H[0] = 0` and each update is clamped to `[0, Hmax]` before the
next update consumes it. -/
theorem C2_H_in_closed_interval (temperature pluviosity : ℚ → ℚ) (i : ℕ) :
    0 ≤ H temperature pluviosity i ∧ H temperature pluviosity i ≤ Hmax := by
  cases i with
  | zero =>
    constructor
    · exact le_refl 0
    · unfold H Hmax; norm_num
  | succ n => exact ⟨clamp2_nonneg _, clamp2_le_Hmax _⟩

open ReadHistData in
/-- C4: the carrying-capacity computation follows the spec's algorithm exactly:
`Evap[i] = lambda * (25 + temperature(days[i]))^2 * (100 - Hum)`,
`H[0] = 0`, for `i ≥ 1` the reservoir update
`H[i] = H[i-1] + pluviosity(days[i-1]) - Evap[i-1]` clamped to `[0, Hmax]`,
and `K[i] = Kmax * H[i] / Hmax + 1`, for every index of the day sequence. -/
theorem C4_carrying_capacity_algorithm (temperature pluviosity : ℚ → ℚ) :
    (∀ i, i < days.length →
      (Evap temperature).getD i 0
        = l * (25 + temperature (days.getD i 0)) ^ 2 * (100 - Hum))
    ∧ H temperature pluviosity 0 = 0
    ∧ (∀ i, i < days.length →
        H temperature pluviosity (i + 1)
          = specClamp (H temperature pluviosity i
              + pluviosity (days.getD i 0) - specEvap temperature (days.getD i 0)))
    ∧ ∀ i, K temperature pluviosity i = Kmax * H temperature pluviosity i / Hmax + 1 := by
  refine ⟨fun i hi => by unfold Evap; exact getD_map_eq _ days i hi,
    rfl, fun i hi => ?_, fun i => rfl⟩
  show clamp2 _ = _
  rw [clamp2_eq_specClamp]
  unfold Evap
  rw [getD_map_eq _ days i hi]
  unfold specClamp specEvap
  congr 1
  ring_nf

open ReadHistData in
/-- Witness for C4: the algorithm equations instantiated at the zero series
and index 0. -/
theorem C4_carrying_capacity_algorithm_witness :
    (Evap (fun _ => 0)).getD 0 0
      = l * (25 + (0 : ℚ)) ^ 2 * (100 - Hum)
    ∧ H (fun _ => 0) (fun _ => 0) 1
      = specClamp (H (fun _ => 0) (fun _ => 0) 0
          + 0 - specEvap (fun _ => 0) (days.getD 0 0)) :=
  ⟨(C4_carrying_capacity_algorithm (fun _ => 0) (fun _ => 0)).1 0 (by decide),
   (C4_carrying_capacity_algorithm (fun _ => 0) (fun _ => 0)).2.2.1 0 (by decide)⟩

open ReadHistData in
/-- C5 counterexample: in the scenario `days` arbitrary, temperature constant
25, pluviosity constant 10, the code's own formula gives
`Evap[0] = 3.9e-5 * (25+25)^2 * 15 = 1.4625` (not `0.035...`) and
`H[1] = 0 + 10 - 1.4625 = 8.5375` (not `9.96...`). -/
theorem C5_counterexample :
    (Evap (fun _ => 25)).getD 0 0 = 1.4625
    ∧ ¬ (Evap (fun _ => 25)).getD 0 0 < 0.036
    ∧ H (fun _ => 25) (fun _ => 10) 1 = 8.5375
    ∧ ¬ 9.96 ≤ H (fun _ => 25) (fun _ => 10) 1 := by
  refine ⟨?_, ?_, ?_, ?_⟩ <;>
    norm_num [H, Evap, days, l, Hum, clamp2, Hmax]

open ReadHistData in
/-- C5 amended: in the scenario with temperature constantly 25 and pluviosity
constantly 10, `Evap[0] = 3.9e-5 * (25+25)^2 * 15 = 1.4625`, and
`H[1] = 0 + (10 - 1.4625) = 8.5375` with the clamp to `[0, 24]` a no-op
(the clamped value equals the raw update), as an exact numeric match. -/
theorem C5_amended :
    (Evap (fun _ => 25)).getD 0 0 = 1.4625
    ∧ H (fun _ => 25) (fun _ => 10) 1
        = 0 + (10 - (Evap (fun _ => 25)).getD 0 0)
    ∧ H (fun _ => 25) (fun _ => 10) 1 = 8.5375 := by
  refine ⟨?_, ?_, ?_⟩ <;>
    norm_num [H, Evap, days, l, Hum, clamp2, Hmax]

namespace Interp

lemma chain_fst_le_last :
    ∀ (L : List (ℚ × ℚ)) (c u : ℚ × ℚ),
      List.Chain' (fun s t => s.1 < t.1) (L ++ [c]) → u ∈ L ++ [c] → u.1 ≤ c.1
  | [], c, u, _, hu => by
    simp only [List.nil_append, List.mem_singleton] at hu
    exact hu ▸ le_refl c.1
  | p :: L, c, u, hc, hu => by
    simp only [List.cons_append] at hc hu
    rcases List.mem_cons.mp hu with rfl | hu2
    · cases hL : L ++ [c] with
      | nil => simp at hL
      | cons q T =>
        rw [hL] at hc
        refine le_trans (le_of_lt (List.chain'_cons.mp hc).1) ?_
        exact chain_fst_le_last L c q (by rw [hL]; exact hc.tail)
          (by rw [hL]; exact List.mem_cons_self q T)
    · exact chain_fst_le_last L c u hc.tail hu2

lemma chain_fst_lt_getD :
    ∀ (T : List (ℚ × ℚ)) (b : ℚ × ℚ) (j : ℕ),
      List.Chain' (fun s t => s.1 < t.1) (b :: T) → j < T.length →
      b.1 < (T.getD j (0, 0)).1
  | [], _, j, _, hj => absurd hj (by simp)
  | q :: T2, b, 0, hc, _ => (List.chain'_cons.mp hc).1
  | q :: T2, b, j + 1, hc, hj => by
    simp only [List.getD_cons_succ]
    exact lt_trans (List.chain'_cons.mp hc).1
      (chain_fst_lt_getD T2 q j (List.chain'_cons.mp hc).2 (by simpa using hj))

lemma interp1dLin_left_extrap (a b : ℚ × ℚ) (back : List (ℚ × ℚ)) (x : ℚ)
    (hc : List.Chain' (fun s t => s.1 < t.1) (a :: b :: back)) (hx : x < a.1) :
    interp1dLin (a :: b :: back) x = a.2 + (x - a.1) * (b.2 - a.2) / (b.1 - a.1) := by
  have hab : a.1 < b.1 := (List.chain'_cons.mp hc).1
  simp only [interp1dLin]
  rw [if_pos (le_of_lt (lt_trans hx hab))]

lemma interp1dLin_right_extrap :
    ∀ (front : List (ℚ × ℚ)) (a b : ℚ × ℚ) (x : ℚ),
      List.Chain' (fun s t => s.1 < t.1) (front ++ [a, b]) → b.1 < x →
      interp1dLin (front ++ [a, b]) x = a.2 + (x - a.1) * (b.2 - a.2) / (b.1 - a.1)
  | [], a, b, x, _, hx => by
    simp only [List.nil_append, interp1dLin]
    rw [if_neg (not_le.mpr hx)]
  | p :: front, a, b, x, hc, hx => by
    obtain ⟨q, T, hE⟩ : ∃ q T, front ++ [a, b] = q :: T := by
      cases hE : front ++ [a, b] with
      | nil => simp at hE
      | cons q T => exact ⟨q, T, rfl⟩
    obtain ⟨r, T3, rfl⟩ : ∃ r T3, T = r :: T3 := by
      cases T with
      | nil =>
        exfalso
        have := congrArg List.length hE
        simp at this
      | cons r T3 => exact ⟨r, T3, rfl⟩
    have hctail : List.Chain' (fun s t => s.1 < t.1) (front ++ [a, b]) := hc.tail
    have hq : q.1 ≤ b.1 := by
      have hc2 : List.Chain' (fun s t => s.1 < t.1) ((front ++ [a]) ++ [b]) := by
        simpa [List.append_assoc] using hctail
      have hmem : q ∈ (front ++ [a]) ++ [b] := by
        have hmem0 : q ∈ front ++ [a, b] := by
          rw [hE]; exact List.mem_cons_self q _
        simpa [List.append_assoc] using hmem0
      exact chain_fst_le_last (front ++ [a]) b q hc2 hmem
    have key : interp1dLin (p :: q :: r :: T3) x = interp1dLin (q :: r :: T3) x := by
      simp only [interp1dLin]
      rw [if_neg (not_le.mpr (lt_of_le_of_lt hq hx))]
    calc interp1dLin ((p :: front) ++ [a, b]) x
        = interp1dLin (p :: q :: r :: T3) x := by rw [List.cons_append, hE]
      _ = interp1dLin (q :: r :: T3) x := key
      _ = interp1dLin (front ++ [a, b]) x := by rw [hE]
      _ = a.2 + (x - a.1) * (b.2 - a.2) / (b.1 - a.1) :=
          interp1dLin_right_extrap front a b x hctail hx

lemma npInterp_left_clamp (a b : ℚ × ℚ) (back : List (ℚ × ℚ)) (x : ℚ)
    (hx : x < a.1) :
    npInterp (a :: b :: back) x = a.2 := by
  simp only [npInterp]
  rw [if_pos hx]

lemma npInterp_right_clamp :
    ∀ (front : List (ℚ × ℚ)) (c : ℚ × ℚ) (x : ℚ),
      List.Chain' (fun s t => s.1 < t.1) (front ++ [c]) → c.1 < x →
      npInterp (front ++ [c]) x = c.2
  | [], c, x, _, _ => rfl
  | p :: front, c, x, hc, hx => by
    obtain ⟨q, T, hE⟩ : ∃ q T, front ++ [c] = q :: T := by
      cases hE : front ++ [c] with
      | nil => simp at hE
      | cons q T => exact ⟨q, T, rfl⟩
    have hctail : List.Chain' (fun s t => s.1 < t.1) (front ++ [c]) := hc.tail
    have hp : p.1 ≤ c.1 :=
      chain_fst_le_last (p :: front) c p hc (List.mem_cons_self p _)
    have hq : q.1 ≤ c.1 :=
      chain_fst_le_last front c q hctail
        (by rw [hE]; exact List.mem_cons_self q T)
    have key : npInterp (p :: q :: T) x = npInterp (q :: T) x := by
      simp only [npInterp]
      rw [if_neg (not_lt.mpr (le_of_lt (lt_of_le_of_lt hp hx))),
        if_neg (not_le.mpr (lt_of_le_of_lt hq hx))]
    calc npInterp ((p :: front) ++ [c]) x
        = npInterp (p :: q :: T) x := by rw [List.cons_append, hE]
      _ = npInterp (q :: T) x := key
      _ = npInterp (front ++ [c]) x := by rw [hE]
      _ = c.2 := npInterp_right_clamp front c x hctail hx

end Interp

open Interp in
/-- C3 counterexample: the interpolant that `src/readHistData.py` builds with
`numpy.interp` does not extrapolate.  For the strictly increasing day indices
`[0, 1]` with values `[0, 1]`, a query at `2` (strictly after the last day
index) returns the clamped endpoint value `1`, while linear extrapolation with
the slope of the nearest segment would give `0 + (2-0)*(1-0)/(1-0) = 2`. -/
theorem C3_counterexample :
    List.Chain' (fun s t => s.1 < t.1) [((0 : ℚ), (0 : ℚ)), (1, 1)]
    ∧ npInterp [((0 : ℚ), (0 : ℚ)), (1, 1)] 2 = 1
    ∧ (0 : ℚ) + (2 - 0) * ((1 : ℚ) - 0) / (1 - 0) = 2
    ∧ (1 : ℚ) ≠ 2 := by
  refine ⟨?_, ?_, by norm_num, by norm_num⟩
  · simp
  · norm_num [npInterp]

open Interp in
/-- C3 amended: the `interp1d(..., fill_value='extrapolate')` interpolants of
the `testDataset` variants return, at query points strictly before the first or
strictly after the last day index, the linear extrapolation using the slope of
the nearest segment; the `numpy.interp` interpolants of `src/readHistData.py`
instead return the clamped endpoint value there. -/
theorem C3_amended :
    (∀ (a b : ℚ × ℚ) (back : List (ℚ × ℚ)) (x : ℚ),
      List.Chain' (fun s t => s.1 < t.1) (a :: b :: back) → x < a.1 →
      interp1dLin (a :: b :: back) x = a.2 + (x - a.1) * (b.2 - a.2) / (b.1 - a.1))
    ∧ (∀ (front : List (ℚ × ℚ)) (a b : ℚ × ℚ) (x : ℚ),
      List.Chain' (fun s t => s.1 < t.1) (front ++ [a, b]) → b.1 < x →
      interp1dLin (front ++ [a, b]) x = a.2 + (x - a.1) * (b.2 - a.2) / (b.1 - a.1))
    ∧ (∀ (a b : ℚ × ℚ) (back : List (ℚ × ℚ)) (x : ℚ),
      List.Chain' (fun s t => s.1 < t.1) (a :: b :: back) → x < a.1 →
      npInterp (a :: b :: back) x = a.2)
    ∧ (∀ (front : List (ℚ × ℚ)) (c : ℚ × ℚ) (x : ℚ),
      List.Chain' (fun s t => s.1 < t.1) (front ++ [c]) → c.1 < x →
      npInterp (front ++ [c]) x = c.2) :=
  ⟨interp1dLin_left_extrap, interp1dLin_right_extrap,
   fun a b back x _ hx => npInterp_left_clamp a b back x hx,
   npInterp_right_clamp⟩

open Interp in
/-- Witness for C3 amended: with samples `[(0,0), (1,1)]`, querying at `2`
(right of the range) extrapolates to `0 + (2-0)*(1-0)/(1-0)` under `interp1d`
and clamps to `1` under `numpy.interp`. -/
theorem C3_amended_witness :
    interp1dLin [((0 : ℚ), (0 : ℚ)), (1, 1)] 2
      = 0 + (2 - 0) * (1 - 0) / (1 - 0)
    ∧ npInterp [((0 : ℚ), (0 : ℚ)), (1, 1)] 2 = 1 :=
  ⟨C3_amended.2.1 [] (0, 0) (1, 1) 2 (by simp) (by simp),
   C3_amended.2.2.2 [(0, 0)] (1, 1) 2 (by simp) (by simp)⟩

open Interp in
/-- C7: every interpolant built from a strictly increasing day-index sequence
and an equal-length value sequence is exact at every sample point, for both
the `numpy.interp` builder of `src/readHistData.py` and the `interp1d` builder
of the `testDataset` variants. -/
theorem C7_interpolants_exact_at_samples :
    ∀ (ps : List (ℚ × ℚ)),
      List.Chain' (fun s t => s.1 < t.1) ps →
      ∀ i, i < ps.length →
        npInterp ps ((ps.getD i (0, 0)).1) = (ps.getD i (0, 0)).2
        ∧ interp1dLin ps ((ps.getD i (0, 0)).1) = (ps.getD i (0, 0)).2
  | [], _, i, hi => absurd hi (by simp)
  | [a], _, 0, _ => ⟨rfl, rfl⟩
  | [a], _, i + 1, hi => absurd hi (by simp)
  | a :: b :: T, hc, 0, _ => by
    have hab : a.1 < b.1 := (List.chain'_cons.mp hc).1
    simp only [List.getD_cons_zero]
    constructor
    · simp only [npInterp]
      rw [if_neg (lt_irrefl a.1), if_pos (le_of_lt hab)]
      ring_nf
    · simp only [interp1dLin]
      rw [if_pos (le_of_lt hab)]
      ring_nf
  | a :: b :: T, hc, 1, _ => by
    have hab : a.1 < b.1 := (List.chain'_cons.mp hc).1
    have hne : b.1 - a.1 ≠ 0 := sub_ne_zero.mpr (ne_of_gt hab)
    have hval : a.2 + (b.1 - a.1) * (b.2 - a.2) / (b.1 - a.1) = b.2 := by
      field_simp
    simp only [List.getD_cons_succ, List.getD_cons_zero]
    constructor
    · simp only [npInterp]
      rw [if_neg (not_lt.mpr (le_of_lt hab)), if_pos (le_refl b.1)]
      exact hval
    · simp only [interp1dLin]
      rw [if_pos (le_refl b.1)]
      exact hval
  | [a, b], hc, j + 2, hi => absurd hi (by simp)
  | a :: b :: r :: T3, hc, j + 2, hi => by
    have hab : a.1 < b.1 := (List.chain'_cons.mp hc).1
    have hcT : List.Chain' (fun s t => s.1 < t.1) (b :: r :: T3) :=
      (List.chain'_cons.mp hc).2
    have hjT : j < (r :: T3).length := by simpa using hi
    have hbx : b.1 < ((r :: T3).getD j (0, 0)).1 :=
      chain_fst_lt_getD (r :: T3) b j hcT hjT
    have hax : a.1 < ((r :: T3).getD j (0, 0)).1 := lt_trans hab hbx
    have ih := C7_interpolants_exact_at_samples (b :: r :: T3) hcT (j + 1)
      (by simpa using hi)
    simp only [List.getD_cons_succ] at ih ⊢
    have key1 : npInterp (a :: b :: r :: T3) (((r :: T3).getD j (0, 0)).1)
        = npInterp (b :: r :: T3) (((r :: T3).getD j (0, 0)).1) := by
      simp only [npInterp]
      rw [if_neg (not_lt.mpr (le_of_lt hax)), if_neg (not_le.mpr hbx)]
    have key2 : interp1dLin (a :: b :: r :: T3) (((r :: T3).getD j (0, 0)).1)
        = interp1dLin (b :: r :: T3) (((r :: T3).getD j (0, 0)).1) := by
      simp only [interp1dLin]
      rw [if_neg (not_le.mpr hbx)]
    exact ⟨key1.trans ih.1, key2.trans ih.2⟩

open Interp in
/-- Witness for C7: the two-sample interpolant through `(0,5)` and `(1,7)` is
exact at the second sample point. -/
theorem C7_interpolants_exact_at_samples_witness :
    npInterp [((0 : ℚ), (5 : ℚ)), (1, 7)] 1 = 7
    ∧ interp1dLin [((0 : ℚ), (5 : ℚ)), (1, 7)] 1 = 7 :=
  C7_interpolants_exact_at_samples [((0 : ℚ), (5 : ℚ)), (1, 7)] (by simp) 1 (by decide)

namespace Maps

/-- Shallow embedding of `meters_per_pixel` from `src/maps/download_maps.py`:
`156543.03392 * math.cos(math.radians(lat)) / (2 ** zoom)`, with
`math.radians(lat) = lat * pi / 180`. -/
noncomputable def meters_per_pixel (lat : ℝ) (zoom : ℕ) : ℝ :=
  156543.03392 * Real.cos (lat * Real.pi / 180) / 2 ^ zoom

/-- One iteration of the loop body of `calculate_zoom_for_1km`: the state is
`(best_zoom, best_diff)`, with `best_diff = none` modelling the initial
`float('inf')` (any real difference compares strictly below it); the update
keeps the candidate only on strict improvement (`diff < best_diff`). -/
noncomputable def zoomStep (diff : ℕ → ℝ) (s : ℕ × Option ℝ) (z : ℕ) :
    ℕ × Option ℝ :=
  match s with
  | (_, none) => (z, some (diff z))
  | (bz, some bd) => if diff z < bd then (z, some (diff z)) else (bz, some bd)

/-- The candidate zoom levels `range(14, 21)` scanned by
`calculate_zoom_for_1km`. -/
def zoomCandidates : List ℕ := [14, 15, 16, 17, 18, 19, 20]

/-- The per-candidate difference computed in the loop of
`calculate_zoom_for_1km`: `coverage = meters_per_pixel(lat, zoom) * image_size`
and `diff = abs(coverage - target_meters)` with `target_meters = 1000`.
The `scale` parameter of the function does not enter this expression. -/
noncomputable def zoomDiff (lat image_size : ℝ) (zoom : ℕ) : ℝ :=
  |meters_per_pixel lat zoom * image_size - 1000|

/-- Shallow embedding of `calculate_zoom_for_1km(lat, image_size, scale)` from
`src/maps/download_maps.py`: starting from `best_zoom = 17`,
`best_diff = float('inf')`, scan the candidates in ascending order and keep
the candidate whose diff strictly improves on the best seen so far.  The
`scale` parameter is accepted (default 2 in the source) but never used in the
body. -/
noncomputable def calculate_zoom_for_1km (lat : ℝ) (image_size : ℝ)
    (scale : ℝ) : ℕ :=
  (zoomCandidates.foldl (zoomStep (zoomDiff lat image_size)) (17, none)).1

lemma zoomFoldl_spec (f : ℕ → ℝ) :
    ∀ (L : List ℕ) (b : ℕ), (b :: L).Sorted (· < ·) →
      ((L.foldl (zoomStep f) (b, some (f b))).1 ∈ b :: L
      ∧ (∀ z ∈ b :: L, f ((L.foldl (zoomStep f) (b, some (f b))).1) ≤ f z)
      ∧ ∀ z ∈ b :: L, z < (L.foldl (zoomStep f) (b, some (f b))).1 →
          f ((L.foldl (zoomStep f) (b, some (f b))).1) < f z)
  | [], b, _ => by simp
  | z0 :: rest, b, hs => by
    have hbz : b < z0 := (List.sorted_cons.mp hs).1 z0 (List.mem_cons_self z0 rest)
    simp only [List.foldl_cons]
    by_cases hf : f z0 < f b
    · have hstep : zoomStep f (b, some (f b)) z0 = (z0, some (f z0)) := by
        simp [zoomStep, if_pos hf]
      rw [hstep]
      have hs2 : (z0 :: rest).Sorted (· < ·) := (List.sorted_cons.mp hs).2
      obtain ⟨hm, hmin, hstrict⟩ := zoomFoldl_spec f rest z0 hs2
      refine ⟨List.mem_cons_of_mem b hm, ?_, ?_⟩
      · intro z hz
        rcases List.mem_cons.mp hz with rfl | hz2
        · exact le_of_lt (lt_of_le_of_lt (hmin z0 (List.mem_cons_self _ _)) hf)
        · exact hmin z hz2
      · intro z hz hlt
        rcases List.mem_cons.mp hz with rfl | hz2
        · exact lt_of_le_of_lt (hmin z0 (List.mem_cons_self _ _)) hf
        · exact hstrict z hz2 hlt
    · have hstep : zoomStep f (b, some (f b)) z0 = (b, some (f b)) := by
        simp [zoomStep, if_neg hf]
      rw [hstep]
      have hs3 : (b :: rest).Sorted (· < ·) := by
        rw [List.sorted_cons] at hs ⊢
        exact ⟨fun z hz => hs.1 z (List.mem_cons_of_mem z0 hz),
          (List.sorted_cons.mp hs.2).2⟩
      obtain ⟨hm, hmin, hstrict⟩ := zoomFoldl_spec f rest b hs3
      have hfb : f b ≤ f z0 := not_lt.mp hf
      refine ⟨?_, ?_, ?_⟩
      · rcases List.mem_cons.mp hm with h | hm2
        · rw [h]; exact List.mem_cons_self _ _
        · exact List.mem_cons_of_mem _ (List.mem_cons_of_mem z0 hm2)
      · intro z hz
        rcases List.mem_cons.mp hz with rfl | hz2
        · exact hmin z (List.mem_cons_self _ _)
        · rcases List.mem_cons.mp hz2 with rfl | hz3
          · exact le_trans (hmin b (List.mem_cons_self _ _)) hfb
          · exact hmin z (List.mem_cons_of_mem b hz3)
      · intro z hz hlt
        rcases List.mem_cons.mp hz with rfl | hz2
        · exact hstrict z (List.mem_cons_self _ _) hlt
        · rcases List.mem_cons.mp hz2 with rfl | hz3
          · exact lt_of_lt_of_le
              (hstrict b (List.mem_cons_self _ _) (lt_trans hbz hlt)) hfb
          · exact hstrict z (List.mem_cons_of_mem b hz3) hlt

end Maps

open Maps in
/-- C1: for every latitude, with target 1000 meters and 640-pixel image width,
`calculate_zoom_for_1km` returns an integer in the candidate range `[14, 20]`
whose coverage-difference `|meters_per_pixel(lat, zoom) * 640 - 1000|` is
less than or equal to that of every candidate in the range, and strictly less
than that of every smaller (earlier-scanned) candidate, so ties are broken in
favour of the candidate evaluated first in ascending order. -/
theorem C1_zoom_selector_optimal (lat : ℝ) :
    (14 ≤ calculate_zoom_for_1km lat 640 2 ∧ calculate_zoom_for_1km lat 640 2 ≤ 20)
    ∧ (∀ z, 14 ≤ z → z ≤ 20 →
        zoomDiff lat 640 (calculate_zoom_for_1km lat 640 2) ≤ zoomDiff lat 640 z)
    ∧ ∀ z, 14 ≤ z → z ≤ 20 → z < calculate_zoom_for_1km lat 640 2 →
        zoomDiff lat 640 (calculate_zoom_for_1km lat 640 2) < zoomDiff lat 640 z := by
  have h0 : calculate_zoom_for_1km lat 640 2
      = (([15, 16, 17, 18, 19, 20] : List ℕ).foldl
          (zoomStep (zoomDiff lat 640)) (14, some (zoomDiff lat 640 14))).1 := rfl
  obtain ⟨hm, hmin, hstrict⟩ :=
    zoomFoldl_spec (zoomDiff lat 640) [15, 16, 17, 18, 19, 20] 14
      (by simp [List.sorted_cons])
  rw [← h0] at hm hmin hstrict
  refine ⟨?_, fun z h14 h20 => ?_, fun z h14 h20 hlt => ?_⟩
  · simp only [List.mem_cons, List.not_mem_nil, or_false] at hm
    rcases hm with h | h | h | h | h | h | h <;> rw [h] <;> omega
  · have hzmem : z ∈ (14 :: [15, 16, 17, 18, 19, 20] : List ℕ) := by
      interval_cases z <;> decide
    exact hmin z hzmem
  · have hzmem : z ∈ (14 :: [15, 16, 17, 18, 19, 20] : List ℕ) := by
      interval_cases z <;> decide
    exact hstrict z hzmem hlt

open Maps in
/-- Witness for C1: at the equator, the selected zoom is in `[14, 20]` and its
coverage difference is no larger than that of candidate 17. -/
theorem C1_zoom_selector_optimal_witness :
    (14 ≤ calculate_zoom_for_1km 0 640 2 ∧ calculate_zoom_for_1km 0 640 2 ≤ 20)
    ∧ zoomDiff 0 640 (calculate_zoom_for_1km 0 640 2) ≤ zoomDiff 0 640 17 :=
  ⟨(C1_zoom_selector_optimal 0).1,
   (C1_zoom_selector_optimal 0).2.1 17 (by decide) (by decide)⟩

open Maps in
/-- C9: the zoom selected by `calculate_zoom_for_1km` is independent of its
`scale` parameter: any two calls differing only in the scale argument return
the same zoom (the coverage compared against the 1000-meter target is
`meters_per_pixel * image_size` without the scale factor). -/
theorem C9_zoom_independent_of_scale (lat image_size scale1 scale2 : ℝ) :
    calculate_zoom_for_1km lat image_size scale1
      = calculate_zoom_for_1km lat image_size scale2 := rfl

namespace Special

/-- The Gauss error function computed by `scipy.special.erf`, which the
sources import and apply inside `phi` and `plateau`:
`erf x = 2/sqrt(pi) * ∫ t in 0..x, exp(-t^2)`. -/
noncomputable def erf (x : ℝ) : ℝ :=
  2 / Real.sqrt Real.pi * ∫ t in (0 : ℝ)..x, Real.exp (-t ^ 2)

lemma intervalIntegrable_exp_neg_sq (a b : ℝ) :
    IntervalIntegrable (fun t : ℝ => Real.exp (-t ^ 2))
      MeasureTheory.volume a b :=
  (Real.continuous_exp.comp (continuous_pow 2).neg).intervalIntegrable a b

lemma erf_mono {a b : ℝ} (hab : a ≤ b) : erf a ≤ erf b := by
  unfold erf
  have hcoef : 0 ≤ 2 / Real.sqrt Real.pi := by positivity
  refine mul_le_mul_of_nonneg_left ?_ hcoef
  have h1 := intervalIntegral.integral_add_adjacent_intervals
    (intervalIntegrable_exp_neg_sq 0 a) (intervalIntegrable_exp_neg_sq a b)
  have h2 : 0 ≤ ∫ t in a..b, Real.exp (-t ^ 2) :=
    intervalIntegral.integral_nonneg hab fun u _ => le_of_lt (Real.exp_pos _)
  linarith

end Special

namespace ReadHistData

/-- `eulerNumber = 2.71828` from `src/readHistData.py`: a five-decimal
rational approximation of e, not e itself. -/
noncomputable def eulerNumber : ℝ := 2.71828

/-- `normal(R, mu, T) = eulerNumber**(-(T-mu)**2/(2*R))` from
`src/readHistData.py`; Python real exponentiation is `Real.rpow`. -/
noncomputable def normal (R mu T : ℝ) : ℝ :=
  eulerNumber ^ (-(T - mu) ^ 2 / (2 * R))

/-- `phi(c, s, P) = (erf((P-c)/s) + 1.2)/2.2` from `src/readHistData.py`. -/
noncomputable def phi (c s P : ℝ) : ℝ :=
  (Special.erf ((P - c) / s) + 1.2) / 2.2

end ReadHistData

namespace TestDataset

/-- The constant `np.e` used by `src/testDataset/readHistData.py` and
`src/testDataset/NovaIguacu/readHistData.py`: the double-precision value
2.718281828459045, an approximation of e. -/
noncomputable def npE : ℝ := 2.718281828459045

/-- `normal(R, mu, T) = np.e**(-(T-mu)**2/(2*R))` from the testDataset
variants. -/
noncomputable def normal (R mu T : ℝ) : ℝ :=
  npE ^ (-(T - mu) ^ 2 / (2 * R))

/-- `phi(P) = (erf((P-10)/40) + 0.3)/1.2` from `src/testDataset/readHistData.py`
and `src/testDataset/NovaIguacu/readHistData.py`. -/
noncomputable def phi (P : ℝ) : ℝ :=
  (Special.erf ((P - 10) / 40) + 0.3) / 1.2

end TestDataset

/-- Modelled from the spec (§4.4): the generalized
`phi(value, center, scale, offset, normalizer)
= (erf((value-center)/scale) + offset) / normalizer`, of which the two source
variants are the `(offset, normalizer) = (1.2, 2.2)` and `(0.3, 1.2)`
parameterizations. -/
noncomputable def phiGen (value center scale offset normalizer : ℝ) : ℝ :=
  (Special.erf ((value - center) / scale) + offset) / normalizer

/-- C6 counterexample: `src/readHistData.py` computes `normal` with the base
`eulerNumber = 2.71828`, which is not e; at `R = 1/2`, `mu = 0`, `T = 1` the
code's value `2.71828⁻¹` differs from the claimed
`exp(-(1-0)^2/(2*(1/2))) = exp(-1) = e⁻¹`. -/
theorem C6_counterexample :
    ReadHistData.normal (1 / 2) 0 1
      ≠ Real.exp (-((1 : ℝ) - 0) ^ 2 / (2 * (1 / 2))) := by
  have hexp : (-((1 : ℝ) - 0) ^ 2 / (2 * (1 / 2)) : ℝ) = -1 := by norm_num
  have h1 : ReadHistData.normal (1 / 2) 0 1 = (2.71828 : ℝ)⁻¹ := by
    unfold ReadHistData.normal ReadHistData.eulerNumber
    rw [hexp, Real.rpow_neg_one]
  have h2 : Real.exp (-((1 : ℝ) - 0) ^ 2 / (2 * (1 / 2))) = (Real.exp 1)⁻¹ := by
    rw [hexp]
    rw [show (-1 : ℝ) = -(1 : ℝ) by norm_num, Real.exp_neg]
  rw [h1, h2]
  intro h
  have he : (2.71828 : ℝ) < Real.exp 1 := by
    have := Real.exp_one_gt_d9
    linarith
  exact ne_of_lt he (inv_injective h)

/-- C6 amended: in `src/readHistData.py`, `normal(R, mu, T)` equals
`b ^ (-(T-mu)^2/(2R))` with base `b = eulerNumber = 2.71828`, and in the
testDataset variants with base `b = np.e = 2.718281828459045`; both bases
approximate e (to within `1e-5` and `1e-9` respectively) but neither equals
the true exponential base, so `normal` is not exactly
`exp(-(T-mu)^2/(2R))` in any variant. -/
theorem C6_amended :
    (∀ R mu T, ReadHistData.normal R mu T
        = ReadHistData.eulerNumber ^ (-(T - mu) ^ 2 / (2 * R)))
    ∧ (∀ R mu T, TestDataset.normal R mu T
        = TestDataset.npE ^ (-(T - mu) ^ 2 / (2 * R)))
    ∧ ReadHistData.eulerNumber ≠ Real.exp 1
    ∧ TestDataset.npE ≠ Real.exp 1
    ∧ |ReadHistData.eulerNumber - Real.exp 1| < 1e-5
    ∧ |TestDataset.npE - Real.exp 1| < 1e-9 := by
  have hgt := Real.exp_one_gt_d9
  have hlt := Real.exp_one_lt_d9
  refine ⟨fun R mu T => rfl, fun R mu T => rfl, ?_, ?_, ?_, ?_⟩
  · unfold ReadHistData.eulerNumber
    intro h
    rw [← h] at hgt
    linarith
  · unfold TestDataset.npE
    intro h
    have hnear := Real.exp_one_near_20
    rw [← h, abs_sub_le_iff] at hnear
    have h2 := hnear.2
    norm_num at h2
  · unfold ReadHistData.eulerNumber
    rw [abs_sub_lt_iff]
    constructor <;> linarith
  · unfold TestDataset.npE
    rw [abs_sub_lt_iff]
    constructor <;> linarith

/-- C8: `phi` is non-decreasing in its input value: for fixed center, scale
`s > 0`, offset, and normalizer `n > 0`, `P1 ≤ P2` implies
`phi(c, s, P1) ≤ phi(c, s, P2)`; the two source `phi` variants are the
`(1.2, 2.2)` and `(0.3, 1.2)` instances of the generalized form. -/
theorem C8_phi_monotone :
    (∀ c s offset n P1 P2, 0 < s → 0 < n → P1 ≤ P2 →
      phiGen P1 c s offset n ≤ phiGen P2 c s offset n)
    ∧ (∀ c s P, ReadHistData.phi c s P = phiGen P c s 1.2 2.2)
    ∧ ∀ P, TestDataset.phi P = phiGen P 10 40 0.3 1.2 := by
  refine ⟨fun c s offset n P1 P2 hs hn h12 => ?_, fun c s P => rfl, fun P => rfl⟩
  unfold phiGen
  have harg : (P1 - c) / s ≤ (P2 - c) / s :=
    (div_le_div_iff_of_pos_right hs).mpr (sub_le_sub_right h12 c)
  exact (div_le_div_iff_of_pos_right hn).mpr
    (add_le_add_right (Special.erf_mono harg) offset)

/-- Witness for C8: monotonicity instantiated at center 0, scale 1, offset
1.2, normalizer 1, inputs 0 ≤ 1. -/
theorem C8_phi_monotone_witness :
    phiGen 0 0 1 1.2 1 ≤ phiGen 1 0 1 1.2 1 :=
  C8_phi_monotone.1 0 1 1.2 1 0 1 one_pos one_pos zero_le_one

/-- C10: the `phi` variant of the testDataset files, with offset 0.3 and
normalizer 1.2, takes a negative value: at `P = -30` the argument of `erf` is
`(-30-10)/40 = -1` and `erf(-1) < -0.3`, so `phi(-30) < 0`; hence this
variant's output is not confined to the interval `[0, 1]`. -/
theorem C10_testDataset_phi_negative :
    (∃ P : ℝ, TestDataset.phi P < 0) ∧ TestDataset.phi (-30) < 0 := by
  have h1 : (0 : ℝ) < Real.sqrt Real.pi := Real.sqrt_pos.mpr Real.pi_pos
  have h2 : Real.sqrt Real.pi < 1.775 := by
    rw [Real.sqrt_lt' (by norm_num)]
    nlinarith [Real.pi_lt_d2]
  have h3 : (0.3678 : ℝ) < Real.exp (-1) := by
    have := Real.exp_neg_one_gt_d9
    linarith
  have hint : Real.exp (-1) ≤ ∫ t in (-1 : ℝ)..0, Real.exp (-t ^ 2) := by
    have hle : ∀ x ∈ Set.Icc (-1 : ℝ) 0, Real.exp (-1) ≤ Real.exp (-x ^ 2) := by
      intro x hx
      apply Real.exp_le_exp.mpr
      nlinarith [hx.1, hx.2]
    have hmono := intervalIntegral.integral_mono_on
      (by norm_num : (-1 : ℝ) ≤ 0)
      (intervalIntegrable_const)
      (Special.intervalIntegrable_exp_neg_sq (-1) 0) hle
    simpa using hmono
  have herf_eq : Special.erf (-1)
      = 2 / Real.sqrt Real.pi * -(∫ t in (-1 : ℝ)..0, Real.exp (-t ^ 2)) := by
    unfold Special.erf
    rw [intervalIntegral.integral_symm]
  have hcoef : 0 ≤ 2 / Real.sqrt Real.pi := by positivity
  have hub : Special.erf (-1) ≤ 2 / Real.sqrt Real.pi * -Real.exp (-1) := by
    rw [herf_eq]
    exact mul_le_mul_of_nonneg_left (neg_le_neg hint) hcoef
  have h4 : (0.3 : ℝ) < 2 / Real.sqrt Real.pi * Real.exp (-1) := by
    rw [div_mul_eq_mul_div, lt_div_iff₀ h1]
    nlinarith
  have heq : 2 / Real.sqrt Real.pi * -Real.exp (-1)
      = -(2 / Real.sqrt Real.pi * Real.exp (-1)) := by ring
  have herf : Special.erf (-1) < -0.3 := by
    rw [heq] at hub
    linarith
  have hval : TestDataset.phi (-30) < 0 := by
    unfold TestDataset.phi
    have harg : ((-30 : ℝ) - 10) / 40 = -1 := by norm_num
    rw [harg]
    apply div_neg_of_neg_of_pos
    · linarith
    · norm_num
  exact ⟨⟨-30, hval⟩, hval⟩
